import Mathlib

/-
Verification of the streaming event-consumption and diagram self-repair
pipeline of the GitUnderstand frontend.

The development shallowly embeds the relevant source files:
  * src/diagrams/src/components/mermaid-diagram.tsx
      (repairMermaidSyntax, renderDiagram, MermaidErrorState)
  * src/diagrams/src/lib/sse-reader.ts (readSSEStream)
  * src/diagrams/src/hooks/useIngest.ts (ingest event/error handlers)
  * src/diagrams/src/components/ai-chat.tsx (chat handlers, history persistence)
  * src/diagrams/src/components/api-key-dialog.tsx (AI summary handlers)

Strings are modelled as `List Char`.  JavaScript built-ins that the code
treats as black boxes (JSON.parse, response.json(), mermaid.parse,
mermaid.render, TextDecoder) are modelled as oracle parameters or oracle
fields of the modelled response.  Each JS regex replacement in
repairMermaidSyntax is embedded as a left-to-right scanner whose matcher
reproduces the regex's backtracking semantics for the exact pattern that
appears in the source.
-/

namespace GitUnderstand

abbrev Str := List Char

/-- Left curly brace character (written via its code point). -/
def lbrace : Char := Char.ofNat 123

/-- Right curly brace character (written via its code point). -/
def rbrace : Char := Char.ofNat 125

/-- JS `\w` character class: `[A-Za-z0-9_]`. -/
def isWordChar (c : Char) : Bool := c.isAlphanum || c = '_'

/-- JS `\s` character class, restricted to the ASCII whitespace characters. -/
def isSpaceChar (c : Char) : Bool :=
  c = ' ' || c = '\t' || c = '\n' || c = '\r' || c = '\x0b' || c = '\x0c'

/-- Match a literal at the head of the input, returning the remainder. -/
def dropLit : Str → Str → Option Str
  | [], s => some s
  | _ :: _, [] => none
  | p :: ps, c :: cs => if c = p then dropLit ps cs else none

/-- A matcher receives the character just before the current position (for
`\b`) and the current suffix; on success it returns
(matched text, replacement text, remaining suffix). -/
abbrev Matcher := Option Char → Str → Option (Str × Str × Str)

/-- Left-to-right global-replace scan, as JS `String.prototype.replace` with a
`g`-flag regex: at each position try the matcher; on a match emit the
replacement and continue after the matched text, otherwise copy one character.
The fuel bounds the number of steps; `runRule` supplies `s.length`, which
suffices because every matcher consumes at least one character. -/
def scanRw (f : Matcher) : Nat → Option Char → Str → Str
  | 0, _, s => s
  | fuel + 1, prev, s =>
    match f prev s with
    | some (m, rep, rest) => rep ++ scanRw f fuel (some (m.getLastD 'x')) rest
    | none =>
      match s with
      | [] => []
      | c :: cs => c :: scanRw f fuel (some c) cs

/-- One global regex replacement pass over the whole text. -/
def runRule (f : Matcher) (s : Str) : Str :=
  scanRw f s.length none s

/-! ### Rule 1: `fixed.replace(/%%\{init:[\s\S]*?\}%%/g, "")` -/

/-- The literal opening of an init directive. -/
def initLit : Str := '%' :: '%' :: lbrace :: 'i' :: 'n' :: 'i' :: 't' :: ':' :: []

/-- Lazy search for the earliest closing brace followed by two percent signs;
returns (consumed text including the closer, remainder). -/
def findClose : Str → Option (Str × Str)
  | [] => none
  | c :: cs =>
    match (if c = rbrace then dropLit ('%' :: '%' :: []) cs else none) with
    | some rest => some (c :: '%' :: '%' :: [], rest)
    | none =>
      match findClose cs with
      | some (m, rest) => some (c :: m, rest)
      | none => none

/-- Matcher for rule 1. -/
def m1 : Matcher := fun _prev s =>
  match dropLit initLit s with
  | none => none
  | some r =>
    match findClose r with
    | none => none
    | some (consumed, rest) => some (initLit ++ consumed, [], rest)

/-! ### Rule 2: pipe-label normalisation

`fixed.replace(/(-->|---|-\.-|==>|-.->|--x|--o)\|\s*"([^"]*)"\s*\|/g, '$1|"$2"|')`
and then
`fixed.replace(/(-->|---|-\.-|==>|-.->|--x|--o)\|\s+([^"|][^|]*?)\s+\|/g, '$1|"$2"|')`.
-/

/-- One alternative of the connector alternation as a literal. -/
def litCand (p : Str) (s : Str) : Option (Str × Str) :=
  (dropLit p s).map (fun r => (p, r))

/-- The `-.->` alternative: its dot is the regex wildcard, so it matches `-`,
any non-line-terminator character, `-`, `>`. -/
def wildCand : Str → Option (Str × Str)
  | '-' :: c :: '-' :: '>' :: rest =>
    if c ≠ '\n' && c ≠ '\r' && c ≠ Char.ofNat 8232 && c ≠ Char.ofNat 8233 then
      some ('-' :: c :: '-' :: '>' :: [], rest)
    else none
  | _ => none

/-- The connector alternatives, in the alternation order of the source regex. -/
def arrowCands (s : Str) : List (Str × Str) :=
  (litCand ('-' :: '-' :: '>' :: []) s).toList ++
  (litCand ('-' :: '-' :: '-' :: []) s).toList ++
  (litCand ('-' :: '.' :: '-' :: []) s).toList ++
  (litCand ('=' :: '=' :: '>' :: []) s).toList ++
  (wildCand s).toList ++
  (litCand ('-' :: '-' :: 'x' :: []) s).toList ++
  (litCand ('-' :: '-' :: 'o' :: []) s).toList

/-- Try candidates in order, committing to the first whose continuation
succeeds (regex alternation backtracking). -/
def firstSome : List α → (α → Option β) → Option β
  | [], _ => none
  | a :: as, f =>
    match f a with
    | some b => some b
    | none => firstSome as f

/-- After the connector: match `\|\s*"([^"]*)"\s*\|`, returning
(consumed text, captured label, remainder).  The pattern is deterministic:
`\s` cannot match `"`, and `[^"]` cannot match `"`. -/
def m2aAfter (s : Str) : Option (Str × Str × Str) :=
  match s with
  | '|' :: r1 =>
    let sp1 := r1.takeWhile isSpaceChar
    match r1.dropWhile isSpaceChar with
    | '"' :: r3 =>
      let label := r3.takeWhile (fun c => c ≠ '"')
      match r3.dropWhile (fun c => c ≠ '"') with
      | '"' :: r4 =>
        let sp2 := r4.takeWhile isSpaceChar
        match r4.dropWhile isSpaceChar with
        | '|' :: r6 =>
          some ('|' :: sp1 ++ '"' :: label ++ '"' :: sp2 ++ '|' :: [], label, r6)
        | _ => none
      | _ => none
    | _ => none
  | _ => none

/-- Matcher for the quoted-label pipe rule. -/
def m2a : Matcher := fun _prev s =>
  firstSome (arrowCands s) (fun ar =>
    match m2aAfter ar.2 with
    | some (consumed, label, rest) =>
      some (ar.1 ++ consumed, ar.1 ++ '|' :: '"' :: label ++ '"' :: '|' :: [], rest)
    | none => none)

/-- Match the trailing `\s+\|` of the unquoted-label pipe rule: a maximal
nonempty space run followed by a pipe (deterministic, since a shorter space
run would put a space where the pipe is required). -/
def trailingSp (t : Str) : Option (Str × Str) :=
  let sp := t.takeWhile isSpaceChar
  if sp.length = 0 then none
  else
    match t.dropWhile isSpaceChar with
    | '|' :: r => some (sp ++ '|' :: [], r)
    | _ => none

/-- Lazy `[^|]*?` followed by `\s+\|`: extend the captured group one
non-pipe character at a time, preferring the shortest group for which the
trailing pattern matches.  Returns (group, consumed tail, remainder). -/
def tryK (g : Str) (rest : Str) : Option (Str × Str × Str) :=
  match trailingSp rest with
  | some (con, r) => some (g, con, r)
  | none =>
    match rest with
    | c :: cs => if c ≠ '|' then tryK (g ++ (c :: [])) cs else none
    | [] => none

/-- Greedy `\s+` before the group: try the maximal space run first, backing
off one space at a time (the relinquished spaces become group characters). -/
def tryLead (r1 : Str) : Nat → Option (Str × Str × Str × Str)
  | 0 => none
  | m + 1 =>
    match (match r1.drop (m + 1) with
           | g0 :: rest2 =>
             if g0 ≠ '"' && g0 ≠ '|' then
               match tryK (g0 :: []) rest2 with
               | some (g, con, r) => some (r1.take (m + 1), g, con, r)
               | none => none
             else none
           | [] => none) with
    | some x => some x
    | none => tryLead r1 m

/-- Matcher for the unquoted-label pipe rule. -/
def m2b : Matcher := fun _prev s =>
  firstSome (arrowCands s) (fun ar =>
    match ar.2 with
    | '|' :: r1 =>
      match tryLead r1 (r1.takeWhile isSpaceChar).length with
      | some (sp, g, con, r) =>
        some (ar.1 ++ '|' :: sp ++ g ++ con,
              ar.1 ++ '|' :: '"' :: g ++ '"' :: '|' :: [], r)
      | none => none
    | _ => none)

/-! ### Rule 3: `:::className` removal from subgraph declarations

`fixed.replace(/(subgraph\s+"[^"]*"):::\w+/g, "$1")` and then
`fixed.replace(/(subgraph\s+\S+):::\w+/g, "$1")`.
-/

/-- Matcher for the quoted-title form. -/
def m3a : Matcher := fun _prev s =>
  match dropLit ('s' :: 'u' :: 'b' :: 'g' :: 'r' :: 'a' :: 'p' :: 'h' :: []) s with
  | none => none
  | some r0 =>
    let sp := r0.takeWhile isSpaceChar
    if sp.length = 0 then none
    else
      match r0.dropWhile isSpaceChar with
      | '"' :: r1 =>
        let label := r1.takeWhile (fun c => c ≠ '"')
        match r1.dropWhile (fun c => c ≠ '"') with
        | '"' :: r2 =>
          match dropLit (':' :: ':' :: ':' :: []) r2 with
          | none => none
          | some r3 =>
            let w := r3.takeWhile isWordChar
            if w.length = 0 then none
            else
              let g1 := ('s' :: 'u' :: 'b' :: 'g' :: 'r' :: 'a' :: 'p' :: 'h' :: []) ++
                sp ++ '"' :: label ++ '"' :: []
              some (g1 ++ ':' :: ':' :: ':' :: w, g1, r3.drop w.length)
        | _ => none
      | _ => none

/-- Greedy `\S+` before `:::\w+`: try the longest prefix of the non-space run
first, backing off until the remainder of the run begins with `:::` followed
by at least one word character. -/
def findSplit3 (R : Str) : Nat → Option (Str × Str × Str)
  | 0 => none
  | i + 1 =>
    match (match dropLit (':' :: ':' :: ':' :: []) (R.drop (i + 1)) with
           | some afterCol =>
             let w := afterCol.takeWhile isWordChar
             if w.length = 0 then none
             else some (R.take (i + 1), w, afterCol.drop w.length)
           | none => none) with
    | some x => some x
    | none => findSplit3 R i

/-- Matcher for the bare-identifier form. -/
def m3b : Matcher := fun _prev s =>
  match dropLit ('s' :: 'u' :: 'b' :: 'g' :: 'r' :: 'a' :: 'p' :: 'h' :: []) s with
  | none => none
  | some r0 =>
    let sp := r0.takeWhile isSpaceChar
    if sp.length = 0 then none
    else
      let r1 := r0.dropWhile isSpaceChar
      let R := r1.takeWhile (fun c => !isSpaceChar c)
      let tail := r1.dropWhile (fun c => !isSpaceChar c)
      match findSplit3 R R.length with
      | none => none
      | some (g, w, restR) =>
        let g1 := ('s' :: 'u' :: 'b' :: 'g' :: 'r' :: 'a' :: 'p' :: 'h' :: []) ++ sp ++ g
        some (g1 ++ ':' :: ':' :: ':' :: w, g1, restR ++ tail)

/-! ### Rule 4: `fixed.replace(/subgraph\s+\w+\s+"([^"]+)"/g, 'subgraph "$1"')` -/

/-- Matcher for the subgraph alias form. -/
def m4 : Matcher := fun _prev s =>
  match dropLit ('s' :: 'u' :: 'b' :: 'g' :: 'r' :: 'a' :: 'p' :: 'h' :: []) s with
  | none => none
  | some r0 =>
    let sp1 := r0.takeWhile isSpaceChar
    if sp1.length = 0 then none
    else
      let r1 := r0.dropWhile isSpaceChar
      let w := r1.takeWhile isWordChar
      if w.length = 0 then none
      else
        let r2 := r1.drop w.length
        let sp2 := r2.takeWhile isSpaceChar
        if sp2.length = 0 then none
        else
          match r2.dropWhile isSpaceChar with
          | '"' :: r3 =>
            let label := r3.takeWhile (fun c => c ≠ '"')
            if label.length = 0 then none
            else
              match r3.dropWhile (fun c => c ≠ '"') with
              | '"' :: r4 =>
                some (('s' :: 'u' :: 'b' :: 'g' :: 'r' :: 'a' :: 'p' :: 'h' :: []) ++
                        sp1 ++ w ++ sp2 ++ '"' :: label ++ '"' :: [],
                      ('s' :: 'u' :: 'b' :: 'g' :: 'r' :: 'a' :: 'p' :: 'h' :: ' ' :: []) ++
                        '"' :: label ++ '"' :: [],
                      r4)
              | _ => none
          | _ => none

/-! ### Rule 5: quoting node labels containing unsafe characters -/

/-- The unsafe-character test for bracket labels:
`/[/\\(){}@#$%^&*!<>;]/`. -/
def bracketSpecial (c : Char) : Bool :=
  c = '/' || c = '\\' || c = '(' || c = ')' || c = lbrace || c = rbrace ||
  c = '@' || c = '#' || c = '$' || c = '%' || c = '^' || c = '&' || c = '*' ||
  c = '!' || c = '<' || c = '>' || c = ';'

/-- The unsafe-character test for parenthesis labels:
`/[/\\[\]{}@#$%^&*!<>;]/`. -/
def parenSpecial (c : Char) : Bool :=
  c = '/' || c = '\\' || c = '[' || c = ']' || c = lbrace || c = rbrace ||
  c = '@' || c = '#' || c = '$' || c = '%' || c = '^' || c = '&' || c = '*' ||
  c = '!' || c = '<' || c = '>' || c = ';'

/-- `\b` immediately before a word character: holds at the start of the text
or after a non-word character. -/
def isWordBoundary (prev : Option Char) : Bool :=
  match prev with
  | none => true
  | some c => !isWordChar c

/-- Matcher for `(\b\w+)\[([^\]"]+)\]` with the source's replacement callback
(quote the label if it contains an unsafe character and does not already
start with a quote, otherwise reproduce the match verbatim). -/
def m5b : Matcher := fun prev s =>
  if isWordBoundary prev then
    let idr := s.takeWhile isWordChar
    if idr.length = 0 then none
    else
      match s.drop idr.length with
      | '[' :: r =>
        let label := r.takeWhile (fun c => c ≠ ']' && c ≠ '"')
        if label.length = 0 then none
        else
          match r.drop label.length with
          | ']' :: rest =>
            let matched := idr ++ '[' :: label ++ ']' :: []
            let rep :=
              if label.any bracketSpecial && !(label.headD ' ' = '"') then
                idr ++ '[' :: '"' :: label ++ '"' :: ']' :: []
              else matched
            some (matched, rep, rest)
          | _ => none
      | _ => none
  else none

/-- Matcher for `(\b\w+)\(([^)"]+)\)` with its replacement callback. -/
def m5p : Matcher := fun prev s =>
  if isWordBoundary prev then
    let idr := s.takeWhile isWordChar
    if idr.length = 0 then none
    else
      match s.drop idr.length with
      | '(' :: r =>
        let label := r.takeWhile (fun c => c ≠ ')' && c ≠ '"')
        if label.length = 0 then none
        else
          match r.drop label.length with
          | ')' :: rest =>
            let matched := idr ++ '(' :: label ++ ')' :: []
            let rep :=
              if label.any parenSpecial && !(label.headD ' ' = '"') then
                idr ++ '(' :: '"' :: label ++ '"' :: ')' :: []
              else matched
            some (matched, rep, rest)
          | _ => none
      | _ => none
  else none

/-! ### Rule 6 and the composed repair function -/

/-- `String.prototype.trim` on the ASCII whitespace model. -/
def trimStr (s : Str) : Str :=
  ((s.dropWhile isSpaceChar).reverse.dropWhile isSpaceChar).reverse

/-- Shallow embedding of `repairMermaidSyntax` from
src/diagrams/src/components/mermaid-diagram.tsx: the six repair rules applied
in source order. -/
def repairMermaidSyntax (code : Str) : Str :=
  let f1 := runRule m1 code
  let f2 := runRule m2a f1
  let f3 := runRule m2b f2
  let f4 := runRule m3a f3
  let f5 := runRule m3b f4
  let f6 := runRule m4 f5
  let f7 := runRule m5b f6
  let f8 := runRule m5p f7
  trimStr f8

/-! ## SSE stream reader (src/diagrams/src/lib/sse-reader.ts) -/

/-- A parsed stream event `{type, payload}`.  Payloads are modelled as
association lists from field names to string values, which is all the
specified behaviour inspects. -/
structure SSEEvent where
  type : Str
  payload : List (Str × Str)
deriving DecidableEq

/-- Prepend a character to the first piece of a split (used to build the
JS `String.prototype.split` semantics). -/
def consHead (c : Char) : List Str → List Str
  | [] => (c :: []) :: []
  | h :: t => (c :: h) :: t

/-- `buffer.split("\n\n")`: leftmost, non-overlapping occurrences of the
double-newline frame delimiter. -/
def partsNN : Str → List Str
  | [] => [] :: []
  | c :: [] => (c :: []) :: []
  | c :: c2 :: cs =>
    if c = '\n' && c2 = '\n' then [] :: partsNN cs
    else consHead c (partsNN (c2 :: cs))

/-- Whether the double-newline delimiter occurs anywhere in the text. -/
def hasNN : Str → Bool
  | [] => false
  | _ :: [] => false
  | c :: c2 :: cs => (c = '\n' && c2 = '\n') || hasNN (c2 :: cs)

/-- `eventStr.split("\n")`. -/
def splitLines : Str → List Str
  | [] => [] :: []
  | c :: cs => if c = '\n' then [] :: splitLines cs else consHead c (splitLines cs)

/-- Per-frame processing: skip frames that are empty after trimming,
otherwise parse every line carrying the `"data: "` prefix with the JSON
oracle, skipping lines the oracle rejects (malformed JSON is logged and
skipped in the source). -/
def frameEvents (jsonParse : Str → Option SSEEvent) (frame : Str) : List SSEEvent :=
  if trimStr frame = [] then []
  else
    (splitLines frame).flatMap (fun line =>
      match line with
      | 'd' :: 'a' :: 't' :: 'a' :: ':' :: ' ' :: payload =>
        match jsonParse payload with
        | some e => e :: []
        | none => []
      | _ => [])

/-- The read loop: append the chunk to the buffer, split on the frame
delimiter, process every complete segment, and retain the trailing segment
as the new buffer.  When the reader reports completion the residual buffer
is discarded. -/
def feedChunks (jsonParse : Str → Option SSEEvent) : Str → List Str → List SSEEvent
  | _, [] => []
  | buf, c :: cs =>
    let s := buf ++ c
    let ps := partsNN s
    ps.dropLast.flatMap (frameEvents jsonParse) ++
      feedChunks jsonParse (ps.getLastD []) cs

/-- The JSON error body of a non-2xx response, as far as the reader
inspects it: optional `error` and `detail` string fields. -/
structure ErrBody where
  error : Option Str
  detail : Option Str
deriving DecidableEq

/-- The modelled fetch response: its HTTP status, the outcome of
`response.json()` (`none` models a parse failure, swallowed by the source),
and the body chunks delivered by the reader (`none` models an absent
body reader). -/
structure Response where
  status : Nat
  json : Option ErrBody
  body : Option (List Str)

/-- What a `readSSEStream` call does observably: the events dispatched via
`onEvent`, in order, and the message passed to `onError` if it fired. -/
structure ReadResult where
  events : List SSEEvent
  err : Option Str
deriving DecidableEq

/-- `response.ok`: status in the inclusive range 200–299. -/
def respOk (status : Nat) : Bool := 200 ≤ status && status ≤ 299

/-- The generic fallback message for non-2xx responses. -/
def fallbackMsg : Str := "Request failed".toList

/-- The fixed HTTP 429 message. -/
def rateLimitMsg : Str :=
  "Rate limit exceeded. Please wait a moment before trying again.".toList

/-- The absent-body-reader message. -/
def noReaderMsg : Str := "No response body reader available".toList

/-- `errMsg` computation of the non-2xx branch:
`(data.error as string) ?? (data.detail as string) ?? "Request failed"`,
then the HTTP 429 override. -/
def nonOkMsg (status : Nat) (json : Option ErrBody) : Str :=
  let base :=
    match json with
    | none => fallbackMsg
    | some b =>
      match b.error with
      | some e => e
      | none =>
        match b.detail with
        | some d => d
        | none => fallbackMsg
  if status = 429 then rateLimitMsg else base

/-- Shallow embedding of `readSSEStream` from
src/diagrams/src/lib/sse-reader.ts, parametrised by the `JSON.parse`
oracle for `data:` lines. -/
def readSSEStream (jsonParse : Str → Option SSEEvent) (resp : Response) : ReadResult :=
  if respOk resp.status then
    match resp.body with
    | none => { events := [], err := some noReaderMsg }
    | some chunks => { events := feedChunks jsonParse [] chunks, err := none }
  else
    let m := nonOkMsg resp.status resp.json
    { events := { type := "error".toList,
                  payload := ("message".toList, m) :: ("error".toList, m) :: [] } :: [],
      err := none }

/-- The events a whole body yields: every complete frame before the last
delimiter is processed, the residual final segment never is. -/
def eventsOfBody (jsonParse : Str → Option SSEEvent) (b : Str) : List SSEEvent :=
  (partsNN b).dropLast.flatMap (frameEvents jsonParse)

/-! ## Diagram render engine (renderDiagram in mermaid-diagram.tsx) -/

/-- The `errorState` record of the component. -/
structure MermaidErrorState where
  hasError : Bool
  message : Str
  rawCode : Str
  repairedCode : Option Str
deriving DecidableEq

/-- Observable behaviour of one `renderDiagram(code)` invocation: the
`setErrorState` writes in program order, the svg injected into the DOM (if
any), and how many times `repairMermaidSyntax` was invoked. -/
structure RenderOutcome where
  writes : List MermaidErrorState
  svg : Option Str
  repairCalls : Nat
deriving DecidableEq

/-- Shallow embedding of `renderDiagram` from mermaid-diagram.tsx.
`parse code = some msg` models `mermaid.parse` throwing with message `msg`;
`render` models `mermaid.render` returning an svg or throwing. -/
def renderDiagram (parse : Str → Option Str) (render : Str → Except Str Str)
    (code : Str) : RenderOutcome :=
  match parse code with
  | some perr =>
    let repaired := repairMermaidSyntax code
    if repaired ≠ code then
      match parse repaired with
      | none =>
        let w1 : MermaidErrorState :=
          { hasError := false, message := [], rawCode := code, repairedCode := some repaired }
        match render repaired with
        | .ok svg => { writes := w1 :: [], svg := some svg, repairCalls := 1 }
        | .error _ =>
          { writes := w1 ::
              { hasError := true, message := perr, rawCode := code,
                repairedCode := some repaired } :: [],
            svg := none, repairCalls := 1 }
      | some _ =>
        { writes := { hasError := true, message := perr, rawCode := code,
                      repairedCode := some repaired } :: [],
          svg := none, repairCalls := 1 }
    else
      { writes := { hasError := true, message := perr, rawCode := code,
                    repairedCode := none } :: [],
        svg := none, repairCalls := 1 }
  | none =>
    match render code with
    | .ok svg =>
      { writes := { hasError := false, message := [], rawCode := [],
                    repairedCode := none } :: [],
        svg := some svg, repairCalls := 0 }
    | .error rerr =>
      { writes := { hasError := true, message := rerr, rawCode := code,
                    repairedCode := none } :: [],
        svg := none, repairCalls := 0 }

/-- Event-loop interleaving of the state writes of two overlapping
asynchronous invocations: any merge preserving each invocation's program
order is schedulable, because the component performs every write after an
await with no staleness check. -/
inductive Interleave : List α → List α → List α → Prop
  | nil : Interleave [] [] []
  | left {x : α} {xs ys zs} : Interleave xs ys zs → Interleave (x :: xs) ys (x :: zs)
  | right {y : α} {xs ys zs} : Interleave xs ys zs → Interleave xs (y :: ys) (y :: zs)

/-- Final React state after a sequence of `setErrorState` writes. -/
def finalState (init : MermaidErrorState) (ws : List MermaidErrorState) : MermaidErrorState :=
  ws.getLastD init

/-! ## Feature-level consumers (useIngest.ts, ai-chat.tsx, api-key-dialog.tsx) -/

/-- The progress record of the ingest hook. -/
structure IngestProgress where
  stage : Str
  label : Str
  pct : Nat
  detail : Str
deriving DecidableEq

/-- The ingest hook's state. -/
structure IngestState where
  result : Option Str
  error : Option Str
  loading : Bool
  progress : IngestProgress
deriving DecidableEq

/-- The fixed stage table `PROGRESS_STAGES` of useIngest.ts. -/
def progressStages (ty : Str) : Option (Str × Nat) :=
  if ty = "parsing".toList then some ("Parsing URL".toList, 5)
  else if ty = "cloning".toList then some ("Cloning repository".toList, 25)
  else if ty = "analyzing".toList then some ("Analyzing files".toList, 60)
  else if ty = "formatting".toList then some ("Building output".toList, 85)
  else if ty = "storing".toList then some ("Saving digest".toList, 95)
  else none

/-- Association-list field lookup on a payload. -/
def payloadGet (p : List (Str × Str)) (k : Str) : Option Str :=
  match p.find? (fun kv => kv.1 = k) with
  | some kv => some kv.2
  | none => none

/-- Lookup with a default, modelling `(payload.x as string) ?? d`. -/
def payloadGetD (p : List (Str × Str)) (k : Str) (d : Str) : Str :=
  match payloadGet p k with
  | some v => v
  | none => d

/-- The ingest `onEvent` handler (useIngest.ts).  The handler returns the
state unchanged when the abort flag is set. -/
def ingestOnEvent (abort : Bool) (s : IngestState) (e : SSEEvent) : IngestState :=
  if abort then s
  else if e.type = "complete".toList then
    { s with progress := { stage := "complete".toList, label := "Complete".toList,
                           pct := 100, detail := [] },
             result := some "result".toList, loading := false }
  else if e.type = "error".toList then
    { s with
      error := some (payloadGetD e.payload "error".toList
        (payloadGetD e.payload "message".toList "An unknown error occurred.".toList)),
      loading := false }
  else
    match progressStages e.type with
    | some li =>
      { s with progress := { stage := e.type, label := li.1, pct := li.2,
                             detail := payloadGetD e.payload "message".toList [] } }
    | none => s

/-- The ingest `onError` transport callback; it is a no-op when the abort
flag is set (reset() sets the flag and clears loading itself). -/
def ingestOnError (abort : Bool) (s : IngestState) (msg : Str) : IngestState :=
  if abort then s
  else { s with error := some msg, loading := false }

/-- The chat panel's state relevant to streaming (ai-chat.tsx). -/
structure ChatState where
  busy : Bool
  error : Option Str
  assistantContents : List Str
deriving DecidableEq

/-- The chat `onEvent` handler inside `sendMessage`. -/
def chatOnEvent (s : ChatState) (e : SSEEvent) : ChatState :=
  if e.type = "thinking".toList then s
  else if e.type = "complete".toList then
    { s with
      assistantContents := s.assistantContents ++
        (payloadGetD e.payload "content".toList [] :: []),
      busy := false }
  else if e.type = "error".toList then
    { s with
      error := some (payloadGetD e.payload "message".toList "An error occurred.".toList),
      busy := false }
  else s

/-- The chat `onError` transport callback. -/
def chatOnError (s : ChatState) (msg : Str) : ChatState :=
  { s with error := some ("Network error: ".toList ++ msg), busy := false }

/-- The AI-summary panel's state relevant to streaming (api-key-dialog.tsx). -/
structure SummaryState where
  summaryLoading : Bool
  summaryContent : Option Str
  summaryError : Option Str
  summaryLoadingText : Str
deriving DecidableEq

/-- The summary `onEvent` handler inside `generateSummary`. -/
def summaryOnEvent (s : SummaryState) (e : SSEEvent) : SummaryState :=
  if e.type = "generating".toList then
    { s with
      summaryLoadingText := payloadGetD e.payload "message".toList "Generating...".toList }
  else if e.type = "complete".toList then
    { s with summaryLoading := false,
             summaryContent := payloadGet e.payload "content".toList }
  else if e.type = "error".toList then
    { s with
      summaryLoading := false,
      summaryError := some (payloadGetD e.payload "message".toList
        "An error occurred during AI analysis.".toList) }
  else s

/-- The summary `onError` transport callback. -/
def summaryOnError (s : SummaryState) (msg : Str) : SummaryState :=
  { s with summaryLoading := false,
           summaryError := some ("Network error: ".toList ++ msg) }

/-! ## Chat history persistence (ai-chat.tsx) -/

/-- Message roles. -/
inductive ChatRole
  | user
  | assistant
deriving DecidableEq

/-- An in-memory chat message; instants are modelled as naturals. -/
structure ChatMessage where
  role : ChatRole
  content : Str
  timestamp : Nat
deriving DecidableEq

/-- The persisted form: `{role, content}` only. -/
structure PersistedMsg where
  role : ChatRole
  content : Str
deriving DecidableEq

/-- `saveHistory`: `msgs.map((m) => ({role: m.role, content: m.content}))`. -/
def saveHistory (msgs : List ChatMessage) : List PersistedMsg :=
  msgs.map (fun m => { role := m.role, content := m.content })

/-- The restore effect: each persisted record becomes a message whose
timestamp is the restore instant (`new Date()`). -/
def restoreHistory (now : Nat) (saved : List PersistedMsg) : List ChatMessage :=
  saved.map (fun m => { role := m.role, content := m.content, timestamp := now })

/-! ## Helper lemmas -/

theorem consHead_ne_nil (c : Char) (l : List Str) : consHead c l ≠ [] := by
  cases l <;> simp [consHead]

theorem no_lf_cons {c : Char} {l : Str} (h : '\n' ∉ c :: l) :
    (c = '\n') = False ∧ '\n' ∉ l := by
  rw [List.mem_cons, not_or] at h
  exact ⟨by simp only [eq_iff_iff, iff_false]; exact fun hh => h.1 hh.symm, h.2⟩

theorem getLastD_irrel {α : Type} (l : List α) (h : l ≠ []) (d d' : α) :
    l.getLastD d = l.getLastD d' := by
  cases l with
  | nil => exact absurd rfl h
  | cons a l => simp only [List.getLastD_cons]

theorem getLastD_append_right {α : Type} (xs : List α) {ys : List α} (h : ys ≠ [])
    (d : α) : (xs ++ ys).getLastD d = ys.getLastD d := by
  induction xs with
  | nil => rfl
  | cons a xs ih =>
    cases xs with
    | nil =>
      cases ys with
      | nil => exact absurd rfl h
      | cons b ys => simp [List.getLastD_cons]
    | cons b xs => simpa [List.getLastD_cons] using ih

/-! ## C8, C9: concrete repair examples and chat history round trip -/

/-- C8: `repairMermaidSyntax` maps `A -->| "go here" | B` to
`A -->|"go here"| B` (rule 2), maps `A[path/to (file)]` to
`A["path/to (file)"]` (rule 5), and leaves `A[simple]` unchanged. -/
theorem repair_acceptance_examples :
    repairMermaidSyntax "A -->| \"go here\" | B".toList = "A -->|\"go here\"| B".toList ∧
    repairMermaidSyntax "A[path/to (file)]".toList = "A[\"path/to (file)\"]".toList ∧
    repairMermaidSyntax "A[simple]".toList = "A[simple]".toList :=
  ⟨by decide, by decide, by decide⟩

/-- C9: persisting a chat message sequence as `{role, content}` records and
restoring it reconstructs the same roles and contents in the same order. -/
theorem chat_history_round_trip (msgs : List ChatMessage) (now : Nat) :
    (restoreHistory now (saveHistory msgs)).map (fun m => (m.role, m.content)) =
      msgs.map (fun m => (m.role, m.content)) := by
  simp [restoreHistory, saveHistory, List.map_map]

/-! ## C5: non-2xx status mapping -/

/-- C5: a non-2xx response synthesises exactly one error event through
`onEvent` (never `onError`); its message and error fields coincide, the
message comes from the body's `error` field, else `detail`, else the generic
fallback, and status 429 forces the fixed rate-limit text regardless of the
body. -/
theorem non2xx_status_mapping (jsonParse : Str → Option SSEEvent) (resp : Response)
    (h : respOk resp.status = false) :
    ∃ m, (readSSEStream jsonParse resp).events =
        { type := "error".toList,
          payload := ("message".toList, m) :: ("error".toList, m) :: [] } :: [] ∧
      (readSSEStream jsonParse resp).err = none ∧
      (resp.status = 429 → m = rateLimitMsg) ∧
      (resp.status ≠ 429 →
        m = match resp.json with
            | none => fallbackMsg
            | some b =>
              match b.error with
              | some e => e
              | none =>
                match b.detail with
                | some d => d
                | none => fallbackMsg) := by
  refine ⟨nonOkMsg resp.status resp.json, ?_, ?_, ?_, ?_⟩
  · simp [readSSEStream, h]
  · simp [readSSEStream, h]
  · intro h429
    simp [nonOkMsg, h429]
  · intro h429
    simp [nonOkMsg, h429]

/-- Concrete response for the C5 witness: status 500 with body
`{"error":"boom"}`. -/
def respBoom : Response :=
  { status := 500, json := some { error := some "boom".toList, detail := none },
    body := none }

/-- Trivial JSON oracle used by witnesses. -/
def parseTrivial : Str → Option SSEEvent := fun l => some { type := l, payload := [] }

/-- Witness for C5 at status 500 with body error field, per the spec's own
example. -/
theorem non2xx_status_mapping_witness :
    respOk respBoom.status = false ∧
    (∃ m, (readSSEStream parseTrivial respBoom).events =
        { type := "error".toList,
          payload := ("message".toList, m) :: ("error".toList, m) :: [] } :: [] ∧
      (readSSEStream parseTrivial respBoom).err = none ∧
      (respBoom.status = 429 → m = rateLimitMsg) ∧
      (respBoom.status ≠ 429 →
        m = match respBoom.json with
            | none => fallbackMsg
            | some b =>
              match b.error with
              | some e => e
              | none =>
                match b.detail with
                | some d => d
                | none => fallbackMsg)) :=
  ⟨by decide, non2xx_status_mapping parseTrivial respBoom (by decide)⟩

/-! ## C7: error handling always clears the loading/busy flag -/

/-- C7: in each of the three stream consumers, handling an `error`-typed
event or a transport-error callback leaves the loading/busy flag false.  For
the ingest hook both callbacks are gated on the abort flag; `reset()` is the
only place that sets the flag and it clears `loading` itself, so the abort
invariant `abort = true → loading = false` is part of the statement. -/
theorem errors_clear_loading :
    (∀ (abort : Bool) (s : IngestState) (p : List (Str × Str)),
      (abort = true → s.loading = false) →
      (ingestOnEvent abort s { type := "error".toList, payload := p }).loading = false) ∧
    (∀ (abort : Bool) (s : IngestState) (msg : Str),
      (abort = true → s.loading = false) →
      (ingestOnError abort s msg).loading = false) ∧
    (∀ (s : ChatState) (p : List (Str × Str)),
      (chatOnEvent s { type := "error".toList, payload := p }).busy = false) ∧
    (∀ (s : ChatState) (msg : Str), (chatOnError s msg).busy = false) ∧
    (∀ (s : SummaryState) (p : List (Str × Str)),
      (summaryOnEvent s { type := "error".toList, payload := p }).summaryLoading = false) ∧
    (∀ (s : SummaryState) (msg : Str),
      (summaryOnError s msg).summaryLoading = false) := by
  refine ⟨?_, ?_, ?_, ?_, ?_, ?_⟩
  · intro abort s p hinv
    cases abort with
    | false => simp [ingestOnEvent]
    | true => simpa [ingestOnEvent] using hinv rfl
  · intro abort s msg hinv
    cases abort with
    | false => simp [ingestOnError]
    | true => simpa [ingestOnError] using hinv rfl
  · intro s p
    simp [chatOnEvent]
  · intro s msg
    simp [chatOnError]
  · intro s p
    simp [summaryOnEvent]
  · intro s msg
    simp [summaryOnError]

/-- A concrete ingest state with the loading flag set. -/
def ingestBusy : IngestState :=
  { result := none, error := none, loading := true,
    progress := { stage := [], label := [], pct := 0, detail := [] } }

/-- A concrete busy chat state. -/
def chatBusy : ChatState := { busy := true, error := none, assistantContents := [] }

/-- A concrete loading summary state. -/
def summaryBusy : SummaryState :=
  { summaryLoading := true, summaryContent := none, summaryError := none,
    summaryLoadingText := [] }

/-- Witness for C7: all six statements instantiated at concrete busy states. -/
theorem errors_clear_loading_witness :
    (ingestOnEvent false ingestBusy { type := "error".toList, payload := [] }).loading = false ∧
    (ingestOnError false ingestBusy "net".toList).loading = false ∧
    (chatOnEvent chatBusy { type := "error".toList, payload := [] }).busy = false ∧
    (chatOnError chatBusy "net".toList).busy = false ∧
    (summaryOnEvent summaryBusy { type := "error".toList, payload := [] }).summaryLoading = false ∧
    (summaryOnError summaryBusy "net".toList).summaryLoading = false :=
  ⟨errors_clear_loading.1 false ingestBusy [] (by intro h; cases h),
   errors_clear_loading.2.1 false ingestBusy "net".toList (by intro h; cases h),
   errors_clear_loading.2.2.1 chatBusy [],
   errors_clear_loading.2.2.2.1 chatBusy "net".toList,
   errors_clear_loading.2.2.2.2.1 summaryBusy [],
   errors_clear_loading.2.2.2.2.2 summaryBusy "net".toList⟩

/-! ## C3: one-shot repair in the render engine -/

/-- C3: when the source text fails to parse, repair is applied exactly once;
a differing repaired text that parses (and renders) ends in the rendered
state recording the repaired candidate; a differing repaired text that fails
to parse ends failed with the original error, the original source, and the
candidate; an unchanged repair output ends failed with no candidate. -/
theorem render_one_shot_repair (parse : Str → Option Str) (render : Str → Except Str Str)
    (code perr : Str) (hp : parse code = some perr) :
    (renderDiagram parse render code).repairCalls = 1 ∧
    (∀ svg, repairMermaidSyntax code ≠ code →
      parse (repairMermaidSyntax code) = none →
      render (repairMermaidSyntax code) = .ok svg →
      renderDiagram parse render code =
        { writes := { hasError := false, message := [], rawCode := code,
                      repairedCode := some (repairMermaidSyntax code) } :: [],
          svg := some svg, repairCalls := 1 }) ∧
    (∀ e2, repairMermaidSyntax code ≠ code →
      parse (repairMermaidSyntax code) = some e2 →
      renderDiagram parse render code =
        { writes := { hasError := true, message := perr, rawCode := code,
                      repairedCode := some (repairMermaidSyntax code) } :: [],
          svg := none, repairCalls := 1 }) ∧
    (repairMermaidSyntax code = code →
      renderDiagram parse render code =
        { writes := { hasError := true, message := perr, rawCode := code,
                      repairedCode := none } :: [],
          svg := none, repairCalls := 1 }) := by
  refine ⟨?_, ?_, ?_, ?_⟩
  · simp only [renderDiagram, hp]
    split
    · split
      · split <;> rfl
      · rfl
    · rfl
  · intro svg hne hpr hren
    simp only [renderDiagram, hp, if_pos hne, hpr, hren]
  · intro e2 hne hpr
    simp only [renderDiagram, hp, if_pos hne, hpr]
  · intro heq
    simp only [renderDiagram, hp, heq, ne_eq, not_true_eq_false, if_false]

/-- Concrete parse oracle for the C3 witness: only the original text fails. -/
def parseW : Str → Option Str :=
  fun s => if s = "A[bad/label]".toList then some "parse error".toList else none

/-- Concrete render oracle for witnesses: always succeeds. -/
def renderW : Str → Except Str Str := fun _ => .ok "svg".toList

/-- Witness for C3: a text whose repair differs and parses. -/
theorem render_one_shot_repair_witness :
    parseW "A[bad/label]".toList = some "parse error".toList ∧
    ((renderDiagram parseW renderW "A[bad/label]".toList).repairCalls = 1 ∧
     (∀ svg, repairMermaidSyntax "A[bad/label]".toList ≠ "A[bad/label]".toList →
       parseW (repairMermaidSyntax "A[bad/label]".toList) = none →
       renderW (repairMermaidSyntax "A[bad/label]".toList) = .ok svg →
       renderDiagram parseW renderW "A[bad/label]".toList =
         { writes := { hasError := false, message := [], rawCode := "A[bad/label]".toList,
                       repairedCode := some (repairMermaidSyntax "A[bad/label]".toList) } :: [],
           svg := some svg, repairCalls := 1 }) ∧
     (∀ e2, repairMermaidSyntax "A[bad/label]".toList ≠ "A[bad/label]".toList →
       parseW (repairMermaidSyntax "A[bad/label]".toList) = some e2 →
       renderDiagram parseW renderW "A[bad/label]".toList =
         { writes := { hasError := true, message := "parse error".toList,
                       rawCode := "A[bad/label]".toList,
                       repairedCode := some (repairMermaidSyntax "A[bad/label]".toList) } :: [],
           svg := none, repairCalls := 1 }) ∧
     (repairMermaidSyntax "A[bad/label]".toList = "A[bad/label]".toList →
       renderDiagram parseW renderW "A[bad/label]".toList =
         { writes := { hasError := true, message := "parse error".toList,
                       rawCode := "A[bad/label]".toList, repairedCode := none } :: [],
           svg := none, repairCalls := 1 })) :=
  ⟨by decide, render_one_shot_repair parseW renderW "A[bad/label]".toList
    "parse error".toList (by decide)⟩

/-! ## C1: render-engine supersession -/

/-- Parse oracle for the supersession analysis: the stale source fails to
parse (and is unchanged by repair), the new source parses. -/
def parseSup : Str → Option Str :=
  fun s => if s = "badA".toList then some "errA".toList else none

/-- The failure state the stale attempt writes. -/
def staleWrite : MermaidErrorState :=
  { hasError := true, message := "errA".toList, rawCode := "badA".toList,
    repairedCode := none }

/-- The all-clear state the new attempt writes after rendering. -/
def freshWrite : MermaidErrorState :=
  { hasError := false, message := [], rawCode := [], repairedCode := none }

/-- The component's initial `errorState`. -/
def initES : MermaidErrorState :=
  { hasError := false, message := [], rawCode := [], repairedCode := none }

/-- C1 counterexample: `renderDiagram` performs every `setErrorState` after
an await without consulting `renderIdRef` (which is only used to build a
unique DOM id), so the event loop may deliver the stale attempt A's write
after the newer attempt B has fully completed.  The schedule below is a
legal interleaving of the two attempts' write sequences, and its final state
carries A's source text, not B's — refuting the claim that a late result of
A can never overwrite state belonging to B. -/
theorem render_supersession_counterexample :
    Interleave (renderDiagram parseSup renderW "badA".toList).writes
      (renderDiagram parseSup renderW "okB".toList).writes
      (freshWrite :: staleWrite :: []) ∧
    finalState initES (freshWrite :: staleWrite :: []) ≠
      finalState initES (renderDiagram parseSup renderW "okB".toList).writes ∧
    (finalState initES (freshWrite :: staleWrite :: [])).rawCode = "badA".toList := by
  have hA : (renderDiagram parseSup renderW "badA".toList).writes = staleWrite :: [] := by
    decide
  have hB : (renderDiagram parseSup renderW "okB".toList).writes = freshWrite :: [] := by
    decide
  refine ⟨?_, ?_, by decide⟩
  · rw [hA, hB]
    exact .right (.left .nil)
  · rw [hB]
    decide

/-- C1 amended: the engine has no staleness guard, so supersession only
holds when the attempts do not overlap — if every write of the earlier
attempt A lands before the writes of the newer attempt B, the final state is
exactly the final state B alone would produce.  (With overlap, the
counterexample interleaving shows a stale write may land last.) -/
theorem render_supersession_sequential (parse : Str → Option Str)
    (render : Str → Except Str Str) (codeA codeB : Str) (init : MermaidErrorState) :
    finalState init ((renderDiagram parse render codeA).writes ++
        (renderDiagram parse render codeB).writes) =
      finalState init (renderDiagram parse render codeB).writes := by
  have hB : (renderDiagram parse render codeB).writes ≠ [] := by
    unfold renderDiagram
    cases hp : parse codeB with
    | none => cases hr : render codeB <;> simp
    | some perr =>
      by_cases hne : repairMermaidSyntax codeB ≠ codeB
      · cases hpr : parse (repairMermaidSyntax codeB) with
        | none => cases hr : render (repairMermaidSyntax codeB) <;> simp [hne, hpr, hr]
        | some e => simp [hne, hpr]
      · simp [hne]
  unfold finalState
  rw [getLastD_append_right _ hB]

/-! ## Frame-splitting lemmas for the SSE reader -/

theorem partsNN_ne_nil (s : Str) : partsNN s ≠ [] := by
  match s with
  | [] => simp [partsNN]
  | c :: [] => simp [partsNN]
  | c :: c2 :: cs =>
    simp only [partsNN]
    split
    · simp
    · exact consHead_ne_nil _ _

/-- Splitting a newline-free frame followed by the delimiter peels off that
frame. -/
theorem partsNN_frame : ∀ (a : Str), '\n' ∉ a → ∀ b : Str,
    partsNN (a ++ '\n' :: '\n' :: b) = a :: partsNN b
  | [], _, b => by simp [partsNN]
  | c :: [], ha, b => by
    have hc := (no_lf_cons ha).1
    simp [partsNN, consHead, hc]
  | c :: c2 :: a, ha, b => by
    have hc := (no_lf_cons ha).1
    have ih := partsNN_frame (c2 :: a) (no_lf_cons ha).2 b
    simp only [List.cons_append] at ih ⊢
    simp [partsNN, hc, ih, consHead]

/-- A newline-free text splits into a single line. -/
theorem splitLines_of_no_lf : ∀ (l : Str), '\n' ∉ l → splitLines l = l :: []
  | [], _ => rfl
  | c :: l, h => by
    have hc := (no_lf_cons h).1
    have ih := splitLines_of_no_lf l (no_lf_cons h).2
    simp [splitLines, hc, ih, consHead]

/-- Trimming keeps at least the head when it is not whitespace. -/
theorem trimStr_ne_nil {c : Char} (s : Str) (hc : isSpaceChar c = false) :
    trimStr (c :: s) ≠ [] := by
  unfold trimStr
  rw [List.dropWhile_cons]
  simp only [hc, Bool.false_eq_true, if_false]
  intro h
  rw [List.reverse_eq_nil_iff, List.dropWhile_eq_nil_iff] at h
  have := h c (by simp)
  rw [hc] at this
  cases this

/-- A `data: ` line frame yields exactly the oracle's parse of its payload. -/
theorem frameEvents_data (jsonParse : Str → Option SSEEvent) (l : Str)
    (hl : '\n' ∉ l) :
    frameEvents jsonParse ('d' :: 'a' :: 't' :: 'a' :: ':' :: ' ' :: l) =
      (jsonParse l).toList := by
  unfold frameEvents
  rw [if_neg (trimStr_ne_nil _ (by decide))]
  have hnl : '\n' ∉ ('d' :: 'a' :: 't' :: 'a' :: ':' :: ' ' :: l) := by
    simp only [List.mem_cons, not_or]
    exact ⟨by decide, by decide, by decide, by decide, by decide, by decide, hl⟩
  rw [splitLines_of_no_lf _ hnl]
  cases h : jsonParse l <;> simp [List.flatMap, h, Option.toList]

/-- An SSE frame `data: <payload>\n\n`. -/
def dataFrame (l : Str) : Str :=
  'd' :: 'a' :: 't' :: 'a' :: ':' :: ' ' :: l ++ '\n' :: '\n' :: []

/-- C6: a body of a valid frame, a frame whose data line the JSON oracle
rejects, and another valid frame yields exactly the two valid events, in
order, with the transport-error callback never invoked (the malformed line
is logged and skipped). -/
theorem malformed_frame_resilience (jsonParse : Str → Option SSEEvent)
    (l1 l2 l3 : Str) (e1 e3 : SSEEvent)
    (h1 : jsonParse l1 = some e1) (h2 : jsonParse l2 = none)
    (h3 : jsonParse l3 = some e3)
    (n1 : '\n' ∉ l1) (n2 : '\n' ∉ l2) (n3 : '\n' ∉ l3) :
    readSSEStream jsonParse
      { status := 200, json := none,
        body := some ((dataFrame l1 ++ dataFrame l2 ++ dataFrame l3) :: []) } =
      { events := e1 :: e3 :: [], err := none } := by
  have hok : respOk 200 = true := by decide
  have hd : ∀ (l : Str), '\n' ∉ l →
      '\n' ∉ ('d' :: 'a' :: 't' :: 'a' :: ':' :: ' ' :: l) := by
    intro l hl
    simp only [List.mem_cons, not_or]
    exact ⟨by decide, by decide, by decide, by decide, by decide, by decide, hl⟩
  have hsplit : partsNN (dataFrame l1 ++ dataFrame l2 ++ dataFrame l3) =
      ('d' :: 'a' :: 't' :: 'a' :: ':' :: ' ' :: l1) ::
      ('d' :: 'a' :: 't' :: 'a' :: ':' :: ' ' :: l2) ::
      ('d' :: 'a' :: 't' :: 'a' :: ':' :: ' ' :: l3) :: [] :: [] := by
    unfold dataFrame
    rw [List.append_assoc]
    rw [show ('d' :: 'a' :: 't' :: 'a' :: ':' :: ' ' :: l1 ++ '\n' :: '\n' :: []) ++
          (('d' :: 'a' :: 't' :: 'a' :: ':' :: ' ' :: l2 ++ '\n' :: '\n' :: []) ++
           ('d' :: 'a' :: 't' :: 'a' :: ':' :: ' ' :: l3 ++ '\n' :: '\n' :: [])) =
        ('d' :: 'a' :: 't' :: 'a' :: ':' :: ' ' :: l1) ++ '\n' :: '\n' ::
          (('d' :: 'a' :: 't' :: 'a' :: ':' :: ' ' :: l2) ++ '\n' :: '\n' ::
            (('d' :: 'a' :: 't' :: 'a' :: ':' :: ' ' :: l3) ++ '\n' :: '\n' :: [])) by
      simp]
    rw [partsNN_frame _ (hd l1 n1), partsNN_frame _ (hd l2 n2),
        partsNN_frame _ (hd l3 n3)]
    rfl
  show readSSEStream jsonParse _ = _
  unfold readSSEStream feedChunks
  simp only [hok, if_true]
  rw [show ([] : Str) ++ (dataFrame l1 ++ dataFrame l2 ++ dataFrame l3) =
        dataFrame l1 ++ dataFrame l2 ++ dataFrame l3 from List.nil_append _]
  rw [hsplit]
  simp only [List.dropLast, List.flatMap_cons, List.flatMap_nil, List.getLastD_cons,
    List.getLastD]
  rw [frameEvents_data _ _ n1, frameEvents_data _ _ n2, frameEvents_data _ _ n3,
    h1, h2, h3]
  rfl

/-! ## Chunking transparency: splitting is compatible with concatenation -/

theorem partsNN_cons (c : Char) (u : Str)
    (h : c ≠ '\n' ∨ u.head? ≠ some '\n') :
    partsNN (c :: u) = consHead c (partsNN u) := by
  match u with
  | [] => rfl
  | d :: u' =>
    have hb : (decide (c = '\n') && decide (d = '\n')) = false := by
      rcases h with h | h
      · simp [h]
      · have hd : d ≠ '\n' := by
          intro hh
          exact h (by simp [hh])
        simp [hd]
    simp [partsNN, hb]

theorem partsNN_single : ∀ (s h : Str), partsNN s = h :: [] → h = s
  | [], h, e => by
    simp only [partsNN] at e
    injection e with e1 _
    exact e1.symm
  | c :: [], h, e => by
    simp only [partsNN] at e
    injection e with e1 _
    exact e1.symm
  | c :: c2 :: cs, h, e => by
    simp only [partsNN] at e
    split at e
    · injection e with _ e2
      exact absurd e2 (partsNN_ne_nil cs)
    · cases hP : partsNN (c2 :: cs) with
      | nil => exact absurd hP (partsNN_ne_nil _)
      | cons p ps =>
        rw [hP] at e
        simp only [consHead] at e
        injection e with e1 e2
        subst e2
        have hp := partsNN_single (c2 :: cs) p hP
        rw [e1.symm, hp]

theorem partsNN_of_no_nn : ∀ (s : Str), hasNN s = false → partsNN s = s :: []
  | [], _ => rfl
  | _ :: [], _ => rfl
  | c :: c2 :: cs, h => by
    have hb : (decide (c = '\n') && decide (c2 = '\n')) = false ∧
        hasNN (c2 :: cs) = false := by
      simpa [hasNN, Bool.or_eq_false_iff] using h
    have ih := partsNN_of_no_nn (c2 :: cs) hb.2
    simp [partsNN, hb.1, ih, consHead]

/-- The residual buffer after a split never contains the delimiter. -/
theorem hasNN_lastPart : ∀ (s : Str), hasNN ((partsNN s).getLastD []) = false
  | [] => rfl
  | _ :: [] => rfl
  | c :: c2 :: cs => by
    by_cases hc : c = '\n' ∧ c2 = '\n'
    · obtain ⟨h1, h2⟩ := hc
      subst h1
      subst h2
      have heq : partsNN ('\n' :: '\n' :: cs) = [] :: partsNN cs := by
        simp [partsNN]
      rw [heq, List.getLastD_cons,
        getLastD_irrel _ (partsNN_ne_nil cs) ([] : Str) []]
      exact hasNN_lastPart cs
    · have hb : (decide (c = '\n') && decide (c2 = '\n')) = false := by
        rcases not_and_or.mp hc with h | h <;> simp [h]
      have heq : partsNN (c :: c2 :: cs) = consHead c (partsNN (c2 :: cs)) := by
        simp [partsNN, hb]
      rw [heq]
      have ihh := hasNN_lastPart (c2 :: cs)
      cases hP : partsNN (c2 :: cs) with
      | nil => exact absurd hP (partsNN_ne_nil _)
      | cons p ps =>
        rw [hP] at ihh
        cases ps with
        | nil =>
          have hp := partsNN_single (c2 :: cs) p hP
          subst hp
          have ihh2 : hasNN (c2 :: cs) = false := ihh
          show hasNN (c :: c2 :: cs) = false
          simp [hasNN, hb, ihh2]
        | cons q qs =>
          simp only [consHead, List.getLastD_cons] at ihh ⊢
          exact ihh

/-- The key compatibility of splitting with concatenation: splitting `s ++ t`
is splitting `s`, except that the residual of `s` is re-examined together
with `t`. -/
theorem partsNN_append : ∀ (s t : Str),
    partsNN (s ++ t) =
      (partsNN s).dropLast ++ partsNN ((partsNN s).getLastD [] ++ t)
  | [], t => by simp [partsNN]
  | c :: [], t => by simp [partsNN]
  | c :: c2 :: cs, t => by
    by_cases hc : c = '\n' ∧ c2 = '\n'
    · obtain ⟨h1, h2⟩ := hc
      subst h1
      subst h2
      have ih := partsNN_append cs t
      have lhs : partsNN (('\n' :: '\n' :: cs) ++ t) = [] :: partsNN (cs ++ t) := by
        simp [partsNN]
      have rhs1 : partsNN ('\n' :: '\n' :: cs) = [] :: partsNN cs := by
        simp [partsNN]
      rw [lhs, rhs1, ih]
      cases hP : partsNN cs with
      | nil => exact absurd hP (partsNN_ne_nil _)
      | cons p ps =>
        simp [List.dropLast_cons₂, List.getLastD_cons]
    · have hb : (decide (c = '\n') && decide (c2 = '\n')) = false := by
        rcases not_and_or.mp hc with h | h <;> simp [h]
      have ih := partsNN_append (c2 :: cs) t
      have lhs : partsNN ((c :: c2 :: cs) ++ t) =
          consHead c (partsNN ((c2 :: cs) ++ t)) := by
        apply partsNN_cons
        rcases not_and_or.mp hc with h | h
        · exact Or.inl h
        · exact Or.inr (by simp [h])
      have rhs1 : partsNN (c :: c2 :: cs) = consHead c (partsNN (c2 :: cs)) := by
        simp [partsNN, hb]
      rw [lhs, rhs1, ih]
      cases hP : partsNN (c2 :: cs) with
      | nil => exact absurd hP (partsNN_ne_nil _)
      | cons p ps =>
        cases ps with
        | nil =>
          have hp := partsNN_single (c2 :: cs) p hP
          have step : partsNN (c :: (p ++ t)) = consHead c (partsNN (p ++ t)) := by
            apply partsNN_cons
            rcases not_and_or.mp hc with h | h
            · exact Or.inl h
            · subst hp
              exact Or.inr (by simp [h])
          simp only [List.dropLast_single, List.nil_append, consHead,
            List.getLastD_cons, List.getLastD_nil, List.cons_append]
          rw [step]
          rfl
        | cons q qs =>
          simp only [consHead, List.dropLast_cons₂, List.getLastD_cons,
            List.cons_append]

/-- Buffer-threading correctness of the read loop: feeding any chunk
sequence starting from a delimiter-free buffer yields exactly the events of
the complete frames of the concatenated body; the residual (the text after
the last delimiter) is never processed. -/
theorem feedChunks_eq (jsonParse : Str → Option SSEEvent) :
    ∀ (cs : List Str) (buf : Str), hasNN buf = false →
      feedChunks jsonParse buf cs = eventsOfBody jsonParse (buf ++ cs.flatten)
  | [], buf, hb => by
    simp [feedChunks, eventsOfBody, partsNN_of_no_nn buf hb]
  | c :: cs, buf, hb => by
    have ih := feedChunks_eq jsonParse cs ((partsNN (buf ++ c)).getLastD [])
      (hasNN_lastPart _)
    simp only [feedChunks]
    rw [ih]
    unfold eventsOfBody
    rw [show buf ++ (c :: cs).flatten = (buf ++ c) ++ cs.flatten by
          simp [List.flatten_cons]]
    rw [partsNN_append (buf ++ c) cs.flatten,
      List.dropLast_append_of_ne_nil _ (partsNN_ne_nil _), List.flatMap_append]

/-! ## C10 and C2 -/

/-- C10 (implicit): when the stream completes, the residual text after the
last frame delimiter — in particular an unterminated final frame and any of
its `data: ` lines — is discarded without being parsed: the events are
exactly those of the complete frames of the body, and the call resolves
normally with no error reported. -/
theorem unterminated_final_frame_dropped (jsonParse : Str → Option SSEEvent)
    (json : Option ErrBody) (cs : List Str) :
    readSSEStream jsonParse { status := 200, json := json, body := some cs } =
      { events := eventsOfBody jsonParse cs.flatten, err := none } := by
  unfold readSSEStream
  simp only [show respOk 200 = true by decide, if_true]
  rw [feedChunks_eq jsonParse cs [] rfl]
  simp

/-- C2: the sequence of `onEvent` calls depends only on the concatenated
body, not on where the chunk boundaries fall. -/
theorem chunking_transparency (jsonParse : Str → Option SSEEvent)
    (json json' : Option ErrBody) (cs cs' : List Str)
    (h : cs.flatten = cs'.flatten) :
    readSSEStream jsonParse { status := 200, json := json, body := some cs } =
      readSSEStream jsonParse { status := 200, json := json', body := some cs' } := by
  unfold readSSEStream
  simp only [show respOk 200 = true by decide, if_true]
  rw [feedChunks_eq jsonParse cs [] rfl, feedChunks_eq jsonParse cs' [] rfl, h]

/-- A two-frame body split mid-frame. -/
def chunksSplit : List Str := "data: x\nd".toList :: "ata: y\n\ndata: z\n\n".toList :: []

/-- The same body as a single chunk. -/
def chunksWhole : List Str := "data: x\ndata: y\n\ndata: z\n\n".toList :: []

/-- Witness for C2 at a concrete split crossing a frame boundary. -/
theorem chunking_transparency_witness :
    chunksSplit.flatten = chunksWhole.flatten ∧
    readSSEStream parseTrivial
        { status := 200, json := none, body := some chunksSplit } =
      readSSEStream parseTrivial
        { status := 200, json := none, body := some chunksWhole } :=
  ⟨by decide,
   chunking_transparency parseTrivial none none chunksSplit chunksWhole (by decide)⟩

/-- JSON oracle for the C6 witness: one designated payload is malformed. -/
def parseJsonW : Str → Option SSEEvent :=
  fun l => if l = "bad".toList then none else some { type := l, payload := [] }

/-- Witness for C6: a malformed data line between two valid frames. -/
theorem malformed_frame_resilience_witness :
    (parseJsonW "one".toList = some { type := "one".toList, payload := [] } ∧
     parseJsonW "bad".toList = none ∧
     parseJsonW "two".toList = some { type := "two".toList, payload := [] } ∧
     '\n' ∉ "one".toList ∧ '\n' ∉ "bad".toList ∧ '\n' ∉ "two".toList) ∧
    readSSEStream parseJsonW
      { status := 200, json := none,
        body := some ((dataFrame "one".toList ++ dataFrame "bad".toList ++
          dataFrame "two".toList) :: []) } =
      { events := { type := "one".toList, payload := [] } ::
          { type := "two".toList, payload := [] } :: [], err := none } :=
  ⟨⟨by decide, by decide, by decide, by decide, by decide, by decide⟩,
   malformed_frame_resilience parseJsonW "one".toList "bad".toList "two".toList
     _ _ (by decide) (by decide) (by decide) (by decide) (by decide) (by decide)⟩

/-! ## C4: repair is the identity on clean input -/

/-- The character just before position `i` of `x` (`none` at the start). -/
def prevAt (x : Str) : Nat → Option Char
  | 0 => none
  | i + 1 => x[i]?

/-- Position `i` of `x` is benign for matcher `f`: either no match starts
there, or the match rewrites the matched text to itself. -/
def goodAt (f : Matcher) (x : Str) (i : Nat) : Bool :=
  match f (prevAt x i) (x.drop i) with
  | none => true
  | some (m, rep, rest) =>
    decide (m ≠ []) && decide (rep = m) && decide (m ++ rest = x.drop i)

/-- The replacement pass of `f` has nothing to rewrite anywhere in `x`. -/
def cleanFor (f : Matcher) (x : Str) : Bool :=
  (List.range (x.length + 1)).all (goodAt f x)

theorem getElem?_last_of_ne_nil {m : Str} (hm : m ≠ []) (d : Char) :
    m[m.length - 1]? = some (m.getLastD d) := by
  rw [← List.getLast?_eq_getElem?, List.getLastD_eq_getLast?]
  cases hl : m.getLast? with
  | none => exact absurd (List.getLast?_eq_none_iff.mp hl) hm
  | some y => rfl

/-- A scan whose matcher is everywhere benign copies the text unchanged. -/
theorem scanRw_id (f : Matcher) (x : Str)
    (hf : ∀ i, i ≤ x.length → goodAt f x i = true) :
    ∀ (fuel i : Nat), i ≤ x.length →
      scanRw f fuel (prevAt x i) (x.drop i) = x.drop i := by
  intro fuel
  induction fuel with
  | zero =>
    intro i _
    rfl
  | succ fuel ih =>
    intro i hi
    have hg := hf i hi
    unfold goodAt at hg
    unfold scanRw
    cases hm : f (prevAt x i) (x.drop i) with
    | none =>
      dsimp only
      cases hd : x.drop i with
      | nil => rfl
      | cons c cs =>
        have hlen : ¬ x.length ≤ i := by
          intro hle
          rw [List.drop_eq_nil_of_le hle] at hd
          cases hd
        have h1 : prevAt x (i + 1) = some c := by
          show x[i]? = some c
          have := List.getElem?_drop x i 0
          rw [hd] at this
          simpa using this.symm
        have h2 : x.drop (i + 1) = cs := by
          rw [← List.tail_drop, hd]
          rfl
        have := ih (i + 1) (by omega)
        rw [h1, h2] at this
        dsimp only
        rw [this]
    | some mr =>
      obtain ⟨m, rep, rest⟩ := mr
      rw [hm] at hg
      dsimp only at hg ⊢
      simp only [Bool.and_eq_true, decide_eq_true_eq] at hg
      obtain ⟨⟨hm0, hrep⟩, hcat⟩ := hg
      have e1 : x.drop i = m ++ rest := hcat.symm
      have hrest : x.drop (i + m.length) = rest := by
        rw [← List.drop_drop, e1, List.drop_left]
      have hj : i + m.length ≤ x.length := by
        have := congrArg List.length e1
        rw [List.length_drop, List.length_append] at this
        omega
      have hml : m.length ≠ 0 := by
        intro h0
        exact hm0 (List.length_eq_zero.mp h0)
      have hprev : prevAt x (i + m.length) = some (m.getLastD 'x') := by
        rw [show i + m.length = (i + (m.length - 1)) + 1 by omega]
        show x[i + (m.length - 1)]? = some (m.getLastD 'x')
        rw [← List.getElem?_drop, e1, List.getElem?_append]
        rw [if_pos (by omega)]
        exact getElem?_last_of_ne_nil hm0 'x'
      have := ih (i + m.length) hj
      rw [hprev, hrest] at this
      rw [hrep, this, ← hrest, hrest, e1]

/-- One full replacement pass is the identity when nothing rewrites. -/
theorem runRule_id (f : Matcher) (x : Str) (h : cleanFor f x = true) :
    runRule f x = x := by
  have hf : ∀ i, i ≤ x.length → goodAt f x i = true := by
    intro i hi
    exact List.all_eq_true.mp h i (List.mem_range.mpr (by omega))
  have := scanRw_id f x hf x.length 0 (Nat.zero_le _)
  simpa [runRule, prevAt] using this

/-- No leading and no trailing whitespace character. -/
def noEdgeWs (x : Str) : Bool :=
  (match x.head? with
   | none => true
   | some c => !isSpaceChar c) &&
  (match x.getLast? with
   | none => true
   | some c => !isSpaceChar c)

theorem trimStr_id (x : Str) (h : noEdgeWs x = true) : trimStr x = x := by
  unfold noEdgeWs at h
  rw [Bool.and_eq_true] at h
  obtain ⟨h1, h2⟩ := h
  have front : x.dropWhile isSpaceChar = x := by
    cases x with
    | nil => rfl
    | cons c cs =>
      simp only [List.head?] at h1
      rw [List.dropWhile_cons]
      simp only [Bool.not_eq_true'] at h1
      simp [h1]
  have back : x.reverse.dropWhile isSpaceChar = x.reverse := by
    cases hrev : x.reverse with
    | nil => rfl
    | cons d ds =>
      have hd : x.getLast? = some d := by
        rw [← List.head?_reverse, hrev]
        rfl
      rw [hd] at h2
      simp only [Bool.not_eq_true'] at h2
      rw [List.dropWhile_cons]
      simp [h2]
  unfold trimStr
  rw [front, back, List.reverse_reverse]

/-- No targeted syntax problem occurs in `x`: none of the eight replacement
passes rewrites anything (for the node-label rules any match must fail the
unsafe-character test, hence rewrite to itself), and there is no leading or
trailing whitespace for the final trim to remove. -/
def cleanDiagram (x : Str) : Bool :=
  cleanFor m1 x && cleanFor m2a x && cleanFor m2b x && cleanFor m3a x &&
  cleanFor m3b x && cleanFor m4 x && cleanFor m5b x && cleanFor m5p x &&
  noEdgeWs x

/-- C4: `repairMermaidSyntax` is a total function of the source text (pure,
deterministic and non-throwing by construction in this embedding), and on
any diagram text exhibiting none of the targeted syntax problems it returns
its input unchanged. -/
theorem repair_identity_on_clean (x : Str) (h : cleanDiagram x = true) :
    repairMermaidSyntax x = x := by
  unfold cleanDiagram at h
  simp only [Bool.and_eq_true] at h
  obtain ⟨⟨⟨⟨⟨⟨⟨⟨h1, h2⟩, h3⟩, h4⟩, h5⟩, h6⟩, h7⟩, h8⟩, h9⟩ := h
  show trimStr (runRule m5p (runRule m5b (runRule m4 (runRule m3b (runRule m3a
    (runRule m2b (runRule m2a (runRule m1 x)))))))) = x
  rw [runRule_id m1 x h1, runRule_id m2a x h2, runRule_id m2b x h3,
    runRule_id m3a x h4, runRule_id m3b x h5, runRule_id m4 x h6,
    runRule_id m5b x h7, runRule_id m5p x h8]
  exact trimStr_id x h9

/-- A clean concrete diagram for the C4 witness: its only node-label match
(`A[simple]`) fails the unsafe-character test and rewrites to itself. -/
def cleanSample : Str := "graph TD\n  A[simple] --> B\n  B --> C".toList

/-- Witness for C4 at a concrete clean diagram. -/
theorem repair_identity_on_clean_witness :
    cleanDiagram cleanSample = true ∧ repairMermaidSyntax cleanSample = cleanSample :=
  ⟨by decide, repair_identity_on_clean cleanSample (by decide)⟩

end GitUnderstand
